import Mathlib

/-!
Shallow embedding of `src/wireguard.rs` from prometheus_wireguard_exporter.

The Rust module parses the tab-separated output of `wg show <if> dump`
into a `WireGuard` value (a map from interface name to the endpoints
seen for it) and renders the result in the Prometheus exposition
format.  Machine integers (`u16`, `u64`, `u128`) are modelled as `Nat`
with explicit range checks where the Rust numeric parsers enforce them.
Fallible Rust code (`?` and `unwrap`) is modelled with `Except`: the
`?` on the handshake field surfaces the crate's format error, while
every `unwrap`/index panic is modelled by a distinct `panic` error.
-/

/-- Outcome of running fallible parser code: `formatError` models the
`ExporterError` produced through `?` on the handshake field,
`panic` models an `unwrap` failure or an out-of-bounds index. -/
inductive RunError where
  | formatError : RunError
  | panic : RunError
deriving DecidableEq, Repr

/-- `LocalEndpoint` struct of wireguard.rs (a 5-token dump line). -/
structure LocalEndpoint where
  public_key : String
  private_key : String
  local_port : Nat
  persistent_keepalive : Bool
deriving DecidableEq, Repr

/-- `RemoteEndpoint` struct of wireguard.rs (a 9-token dump line). -/
structure RemoteEndpoint where
  public_key : String
  remote_ip : Option String
  remote_port : Option Nat
  local_ip : String
  local_subnet : String
  latest_handshake : Nat
  sent_bytes : Nat
  received_bytes : Nat
  persistent_keepalive : Bool
deriving DecidableEq, Repr

/-- `Endpoint` enum of wireguard.rs. -/
inductive Endpoint where
  | Local : LocalEndpoint → Endpoint
  | Remote : RemoteEndpoint → Endpoint
deriving DecidableEq, Repr

/-- `WireGuard` struct of wireguard.rs.  The Rust field is a
`HashMap<String, Vec<Endpoint>>`; it is modelled as an association
list with pairwise-distinct keys, in key-insertion order.  The Rust
map's iteration order is unspecified, so every theorem about the
renderer quantifies over an arbitrary `interfaces` list and therefore
covers every possible iteration order. -/
structure WireGuard where
  interfaces : List (String × List Endpoint)
deriving DecidableEq, Repr

/-- The `EMPTY` constant of wireguard.rs. -/
def EMPTY : String := "(none)"

/-- `to_option_string` of wireguard.rs. -/
def to_option_string (s : String) : Option String :=
  if s = EMPTY then none else some s

/-- `to_bool` of wireguard.rs: `s != "off"`. -/
def to_bool (s : String) : Bool :=
  !(s == "off")

/-- Rust `str::split(c)` on a list of characters: splits at every
occurrence of `c`, keeping empty pieces; the result is never empty. -/
def splitCharList (c : Char) : List Char → List (List Char)
  | [] => [[]]
  | x :: xs =>
    match splitCharList c xs with
    | [] => [[]]
    | h :: t => if x = c then [] :: h :: t else (x :: h) :: t

/-- Rust `str::split(c)` lifted to `String`. -/
def splitChar (c : Char) (s : String) : List String :=
  (splitCharList c s.data).map String.mk

/-- Drop one trailing carriage return, as Rust `str::lines` does. -/
def dropTrailingCR (l : List Char) : List Char :=
  if l.getLast? = some '\r' then l.dropLast else l

/-- Rust `str::lines`: split on newline, drop a final empty piece
produced by a trailing newline, strip one trailing `\r` per line. -/
def rustLines (s : String) : List String :=
  let parts := splitCharList '\n' s.data
  let parts := if parts.getLast? = some [] then parts.dropLast else parts
  parts.map (fun l => String.mk (dropTrailingCR l))

/-- Token split of one dump line, from wireguard.rs line 65:
`line.split('\t').filter(|s| !s.is_empty())`. -/
def tokensOf (line : String) : List String :=
  (splitChar '\t' line).filter (fun s => s ≠ "")

/-- Decimal digit value of a character, if any. -/
def digitVal (c : Char) : Option Nat :=
  if '0' ≤ c ∧ c ≤ '9' then some (c.toNat - 48) else none

/-- Accumulate decimal digits; fails on any non-digit character. -/
def parseDigitsAux : List Char → Nat → Option Nat
  | [], acc => some acc
  | c :: cs, acc =>
    match digitVal c with
    | some d => parseDigitsAux cs (acc * 10 + d)
    | none => none

/-- Rust `str::parse::<uN>()` for an unsigned type with maximum value
`maxv`: an optional leading `+`, then at least one decimal digit, and
the value must fit the type. -/
def parseUnsigned (maxv : Nat) (s : String) : Option Nat :=
  let cs := match s.data with
    | '+' :: rest => rest
    | cs => cs
  match cs with
  | [] => none
  | _ =>
    match parseDigitsAux cs 0 with
    | some n => if n ≤ maxv then some n else none
    | none => none

/-- Rust `str::parse::<u16>()`. -/
def parseU16 : String → Option Nat := parseUnsigned 65535

/-- Rust `str::parse::<u64>()`. -/
def parseU64 : String → Option Nat := parseUnsigned (2 ^ 64 - 1)

/-- Rust `str::parse::<u128>()`. -/
def parseU128 : String → Option Nat := parseUnsigned (2 ^ 128 - 1)

/-- Modelled from the spec: Rust `str::parse::<SocketAddr>()` (the
standard library, outside this repository).  Per the spec the socket
field is "parsed as an IP-address-and-port pair (split at the last
colon semantics of the address form)": the token is split at its last
colon, the part after it must parse as a 16-bit port, and the
non-empty part before it is the IP text (the model keeps that text
verbatim where the standard library would also normalise it). -/
def parseSocketAddr (s : String) : Option (String × Nat) :=
  match splitCharList ':' s.data with
  | [] => none
  | [_] => none
  | parts =>
    let ipPart := List.intercalate [':'] parts.dropLast
    let portPart := (parts.getLast?).getD []
    if ipPart = [] then none
    else
      match parseU16 (String.mk portPart) with
      | some p => some (String.mk ipPart, p)
      | none => none

/-- List indexing `v[i]`; a missing index is a Rust panic. -/
def getTok (v : List String) (i : Nat) : Except RunError String :=
  match v.get? i with
  | some s => Except.ok s
  | none => Except.error RunError.panic

/-- Rust `Option::unwrap`: `none` panics. -/
def unwrapPanic {α : Type} : Option α → Except RunError α
  | some a => Except.ok a
  | none => Except.error RunError.panic

/-- The local branch of `WireGuard::try_from` (lines 68–75): token 1
is the public key, token 2 the private key, token 3 the port
(`parse::<u16>().unwrap()`), token 4 the keepalive flag; the
interface key is token 0. -/
def parseLocal (v : List String) : Except RunError (String × Endpoint) :=
  match v.get? 1, v.get? 2, v.get? 3, v.get? 4, v.get? 0 with
  | some pk, some sk, some p3, some p4, some iface =>
    match parseU16 p3 with
    | some lp =>
      Except.ok (iface, Endpoint.Local ⟨pk, sk, lp, to_bool p4⟩)
    | none => Except.error RunError.panic
  | _, _, _, _, _ => Except.error RunError.panic

/-- Lines 80–86 of wireguard.rs: decode the socket field.  `"(none)"`
gives two absent values; otherwise the field must parse as a socket
address (`unwrap`, hence a panic on failure) and both parts are
present. -/
def parseRemoteIpPort (sock : String) : Except RunError (Option String × Option Nat) :=
  match to_option_string sock with
  | none => Except.ok (none, none)
  | some ipp =>
    match parseSocketAddr ipp with
    | some (ip, p) => Except.ok (some ip, some p)
    | none => Except.error RunError.panic

/-- The remote branch of `WireGuard::try_from` (lines 76–102), with
the Rust evaluation order preserved: token 1 (public key), token 3
(socket field, unwrap), token 4 split on `/` (indices 0 and 1, a
missing index panics), token 5 (`parse::<u64>()?`, the format error),
tokens 6 and 7 (`parse::<u128>().unwrap()`), token 8 (keepalive). -/
def parseRemote (v : List String) : Except RunError (String × Endpoint) :=
  match v.get? 1 with
  | none => Except.error RunError.panic
  | some public_key =>
    match v.get? 3 with
    | none => Except.error RunError.panic
    | some sock =>
      match parseRemoteIpPort sock with
      | Except.error e => Except.error e
      | Except.ok (remote_ip, remote_port) =>
        match v.get? 4 with
        | none => Except.error RunError.panic
        | some v4 =>
          match (splitChar '/' v4).get? 0, (splitChar '/' v4).get? 1 with
          | some local_ip, some local_subnet =>
            match v.get? 5 with
            | none => Except.error RunError.panic
            | some h5 =>
              match parseU64 h5 with
              | none => Except.error RunError.formatError
              | some latest_handshake =>
                match v.get? 6 with
                | none => Except.error RunError.panic
                | some s6 =>
                  match parseU128 s6 with
                  | none => Except.error RunError.panic
                  | some sent_bytes =>
                    match v.get? 7 with
                    | none => Except.error RunError.panic
                    | some s7 =>
                      match parseU128 s7 with
                      | none => Except.error RunError.panic
                      | some received_bytes =>
                        match v.get? 8 with
                        | none => Except.error RunError.panic
                        | some s8 =>
                          match v.get? 0 with
                          | none => Except.error RunError.panic
                          | some iface =>
                            Except.ok (iface, Endpoint.Remote
                              ⟨public_key, remote_ip, remote_port,
                               local_ip, local_subnet, latest_handshake,
                               sent_bytes, received_bytes, to_bool s8⟩)
          | _, _ => Except.error RunError.panic

/-- One iteration of the `for line in input.lines()` loop of
`WireGuard::try_from`: tokenise the line and dispatch on the token
count (exactly 5 means the local interface row, anything else the
remote-peer row), returning the interface key and the endpoint. -/
def parseLine (line : String) : Except RunError (String × Endpoint) :=
  let v := tokensOf line
  if v.length = 5 then parseLocal v else parseRemote v

/-- Lines 106–112 of wireguard.rs: append the endpoint to the vector
of its interface, creating the entry on first sighting. -/
def insertEndpoint (m : List (String × List Endpoint)) (k : String) (e : Endpoint) :
    List (String × List Endpoint) :=
  match m with
  | [] => [(k, [e])]
  | (k0, es) :: rest =>
    if k0 = k then (k0, es ++ [e]) :: rest
    else (k0, es) :: insertEndpoint rest k e

/-- The loop of `WireGuard::try_from` over the remaining lines,
threading the map being built; the first failing line aborts the
whole parse. -/
def tryFromLines : List String → List (String × List Endpoint) →
    Except RunError (List (String × List Endpoint))
  | [], acc => Except.ok acc
  | line :: rest, acc =>
    match parseLine line with
    | Except.ok (k, e) => tryFromLines rest (insertEndpoint acc k e)
    | Except.error err => Except.error err

/-- `WireGuard::try_from(&str)`: the entire parse stage. -/
def wireGuardTryFrom (input : String) : Except RunError WireGuard :=
  match tryFromLines (rustLines input) [] with
  | Except.ok m => Except.ok ⟨m⟩
  | Except.error e => Except.error e

/-- Modelled from the spec: `PeerEntry` of wireguard_config.rs (the
name-lookup table's entry type, loaded outside the core).  The spec's
name-lookup collaborator maps a public key to an entry carrying an
optional friendly display name. -/
structure PeerEntry where
  public_key : String
  allowed_ips : String
  name : Option String
deriving DecidableEq, Repr

/-- Modelled from the spec: `PeerEntryHashMap` of wireguard_config.rs,
a read-only mapping from public key to `PeerEntry`, queried with
`get` at render time. -/
abbrev PeerEntryHashMap := String → Option PeerEntry

/-- Modelled from the spec: `PrometheusCounter` of the external
prometheus_exporter_base crate — a metric family with a name, a type
string and a help string, as configured by `PrometheusCounter::new`. -/
structure PrometheusCounter where
  counter_name : String
  counter_type : String
  counter_help : String
deriving DecidableEq, Repr

/-- Modelled from the spec: `render_header` of the external crate
produces the `# HELP <name> <help>` and `# TYPE <name> <type>` lines
(spec section 6; pinned verbatim by the repository's own tests). -/
def render_header (pc : PrometheusCounter) : String :=
  "# HELP " ++ pc.counter_name ++ " " ++ pc.counter_help ++ "\n" ++
  "# TYPE " ++ pc.counter_name ++ " " ++ pc.counter_type ++ "\n"

/-- Render one `label="value"` pair. -/
def renderAttribute (a : String × String) : String :=
  a.1 ++ "=\"" ++ a.2 ++ "\""

/-- Modelled from the spec: `render_counter` of the external crate
produces one sample line `<name>\x7blabel="value",...\x7d <value>\n`
(spec section 6; pinned verbatim by the repository's own tests). -/
def render_counter (pc : PrometheusCounter) (attrs : List (String × String)) (value : Nat) : String :=
  pc.counter_name ++ "\x7b" ++
  String.intercalate "," (attrs.map renderAttribute) ++
  "\x7d " ++ toString value ++ "\n"

/-- The `pc_sent_bytes_total` counter of `render_with_names`. -/
def pc_sent_bytes_total : PrometheusCounter :=
  ⟨"wireguard_sent_bytes_total", "counter", "Bytes sent to the peer"⟩

/-- The `pc_received_bytes_total` counter of `render_with_names`. -/
def pc_received_bytes_total : PrometheusCounter :=
  ⟨"wireguard_received_bytes_total", "counter", "Bytes received from the peer"⟩

/-- The `pc_latest_handshake` counter of `render_with_names`. -/
def pc_latest_handshake : PrometheusCounter :=
  ⟨"wireguard_latest_handshake_seconds", "gauge", "Seconds from the last handshake"⟩

/-- Lines 159–173 of wireguard.rs: the label list pushed for one
remote endpoint — `inteface` (sic), `public_key`, `local_ip`,
`local_subnet`, then `friendly_name` when the lookup is supplied,
has an entry for the public key, and that entry's name is present. -/
def attributesFor (iface : String) (ep : RemoteEndpoint)
    (pehm : Option PeerEntryHashMap) : List (String × String) :=
  let attrs := [("inteface", iface), ("public_key", ep.public_key),
                ("local_ip", ep.local_ip), ("local_subnet", ep.local_subnet)]
  match pehm with
  | none => attrs
  | some f =>
    match f ep.public_key with
    | none => attrs
    | some pe =>
      match pe.name with
      | none => attrs
      | some n => attrs ++ [("friendly_name", n)]

/-- The inner `for endpoint in endpoints` loop of `render_with_names`
(lines 154–185): local endpoints are skipped; each remote endpoint
appends one sample line to each of the three buffers. -/
def renderInner (pehm : Option PeerEntryHashMap) (iface : String) :
    List Endpoint → List String × List String × List String →
    List String × List String × List String
  | [], acc => acc
  | Endpoint.Local _ :: rest, acc => renderInner pehm iface rest acc
  | Endpoint.Remote ep :: rest, (s1, s2, s3) =>
    let attrs := attributesFor iface ep pehm
    renderInner pehm iface rest
      (s1 ++ [render_counter pc_sent_bytes_total attrs ep.sent_bytes],
       s2 ++ [render_counter pc_received_bytes_total attrs ep.received_bytes],
       s3 ++ [render_counter pc_latest_handshake attrs ep.latest_handshake])

/-- The outer `for (interface, endpoints)` loop of
`render_with_names` (line 153). -/
def renderOuter (pehm : Option PeerEntryHashMap) :
    List (String × List Endpoint) → List String × List String × List String →
    List String × List String × List String
  | [], acc => acc
  | (iface, eps) :: rest, acc => renderOuter pehm rest (renderInner pehm iface eps acc)

/-- Concatenation of a buffer of strings, as the three `push_str`
loops of lines 190–198 do. -/
def concatAll : List String → String
  | [] => ""
  | s :: rest => s ++ concatAll rest

/-- `WireGuard::render_with_names` (lines 121–201): seed each of the
three buffers with its family's header, traverse the table once, and
concatenate the buffers in fixed family order (sent, received,
latest handshake). -/
def render_with_names (wg : WireGuard) (pehm : Option PeerEntryHashMap) : String :=
  match renderOuter pehm wg.interfaces
      ([render_header pc_sent_bytes_total],
       [render_header pc_received_bytes_total],
       [render_header pc_latest_handshake]) with
  | (s1, s2, s3) => concatAll s1 ++ concatAll s2 ++ concatAll s3

deriving instance DecidableEq for Except

/-- Inversion of a successful `parseLocal`: the produced endpoint is a
`Local` one and every field comes from the stated token. -/
theorem parseLocal_ok_inv (v : List String) (k : String) (e : Endpoint)
    (h : parseLocal v = Except.ok (k, e)) :
    ∃ le,
      e = Endpoint.Local le ∧
      v.get? 0 = some k ∧
      v.get? 1 = some le.public_key ∧
      v.get? 2 = some le.private_key ∧
      (∃ p3, v.get? 3 = some p3 ∧ parseU16 p3 = some le.local_port) ∧
      (∃ p4, v.get? 4 = some p4 ∧ le.persistent_keepalive = to_bool p4) := by
  unfold parseLocal at h
  repeat' split at h
  all_goals try cases h
  exact ⟨_, rfl, by assumption, by assumption, by assumption,
    ⟨_, by assumption, by assumption⟩, ⟨_, by assumption, rfl⟩⟩

/-- Inversion of a successful `parseRemote`: the produced endpoint is
a `Remote` one and every field comes from the stated token. -/
theorem parseRemote_ok_inv (v : List String) (k : String) (e : Endpoint)
    (h : parseRemote v = Except.ok (k, e)) :
    ∃ ep,
      e = Endpoint.Remote ep ∧
      v.get? 0 = some k ∧
      v.get? 1 = some ep.public_key ∧
      (∃ sock, v.get? 3 = some sock ∧
        parseRemoteIpPort sock = Except.ok (ep.remote_ip, ep.remote_port)) ∧
      (∃ v4, v.get? 4 = some v4 ∧
        (splitChar '/' v4).get? 0 = some ep.local_ip ∧
        (splitChar '/' v4).get? 1 = some ep.local_subnet) ∧
      (∃ h5, v.get? 5 = some h5 ∧ parseU64 h5 = some ep.latest_handshake) ∧
      (∃ s6, v.get? 6 = some s6 ∧ parseU128 s6 = some ep.sent_bytes) ∧
      (∃ s7, v.get? 7 = some s7 ∧ parseU128 s7 = some ep.received_bytes) ∧
      (∃ s8, v.get? 8 = some s8 ∧ ep.persistent_keepalive = to_bool s8) := by
  unfold parseRemote at h
  repeat' split at h
  all_goals try cases h
  exact ⟨_, rfl, by assumption, by assumption,
    ⟨_, by assumption, by assumption⟩,
    ⟨_, by assumption, by assumption, by assumption⟩,
    ⟨_, by assumption, by assumption⟩,
    ⟨_, by assumption, by assumption⟩,
    ⟨_, by assumption, by assumption⟩,
    ⟨_, by assumption, rfl⟩⟩

/-- Claim C1: for every input line that yields an endpoint, the parse
stage classifies the row solely by the count of non-empty
tab-separated tokens — exactly 5 tokens gives a `Local` endpoint and
any other count gives a `Remote` endpoint; the two cases are
exhaustive and exclusive. -/
theorem c1_token_count_classification (line : String) (k : String) (e : Endpoint)
    (h : parseLine line = Except.ok (k, e)) :
    ((∃ le, e = Endpoint.Local le) ↔ (tokensOf line).length = 5) ∧
    ((∃ re, e = Endpoint.Remote re) ↔ (tokensOf line).length ≠ 5) := by
  unfold parseLine at h
  by_cases hl : (tokensOf line).length = 5
  · simp only [hl, if_true] at h
    obtain ⟨le, he, -⟩ := parseLocal_ok_inv _ _ _ h
    subst he
    constructor
    · constructor
      · intro _
        exact hl
      · intro _
        exact ⟨le, rfl⟩
    · constructor
      · rintro ⟨re, hre⟩
        cases hre
      · intro hc
        exact absurd hl hc
  · simp only [hl, if_false] at h
    obtain ⟨re, he, -⟩ := parseRemote_ok_inv _ _ _ h
    subst he
    constructor
    · constructor
      · rintro ⟨le, hle⟩
        cases hle
      · intro hc
        exact absurd hc hl
    · constructor
      · intro _
        exact hl
      · intro _
        exact ⟨re, rfl⟩

/-- Concrete 5-token local line used by the C1 witness. -/
def localLineEx : String := "wg0\tpk\tsk\t51820\toff"

/-- The endpoint that `parseLine` produces for `localLineEx`. -/
def localEpEx : LocalEndpoint := ⟨"pk", "sk", 51820, false⟩

/-- Witness for C1 at a concrete 5-token line. -/
theorem c1_witness :
    parseLine localLineEx = Except.ok ("wg0", Endpoint.Local localEpEx) ∧
    ((∃ le, Endpoint.Local localEpEx = Endpoint.Local le) ↔ (tokensOf localLineEx).length = 5) :=
  ⟨by decide,
   (c1_token_count_classification localLineEx "wg0" (Endpoint.Local localEpEx) (by decide)).1⟩

/-- Claim C9: the keepalive token decodes to `false` exactly for the
literal `"off"`; every other token decodes to `true`. -/
theorem c9_keepalive_off_only (s : String) : to_bool s = false ↔ s = "off" := by
  simp [to_bool]

/-- The four labels always pushed for a remote endpoint, in the fixed
source order of lines 159–163. -/
def base4 (iface : String) (ep : RemoteEndpoint) : List (String × String) :=
  [("inteface", iface), ("public_key", ep.public_key),
   ("local_ip", ep.local_ip), ("local_subnet", ep.local_subnet)]

/-- Remote endpoint whose looked-up friendly name is the empty
string; used to refute the "non-empty" part of claim C3. -/
def epEmptyName : RemoteEndpoint :=
  ⟨"pk", none, none, "10.0.0.1", "32", 0, 0, 0, false⟩

/-- A lookup that maps `"pk"` to an entry whose name is present but
empty. -/
def lookupEmptyName : PeerEntryHashMap :=
  fun s => if s = "pk" then some ⟨"pk", "", some ""⟩ else none

/-- Counterexample to claim C3 as stated: the lookup returns a
present but EMPTY name for the endpoint's public key, so under the
claim ("appended if and only if ... present, non-empty") no
`friendly_name` label may be appended — yet the code appends one,
because lines 167–172 of wireguard.rs test only presence, never
emptiness. -/
theorem c3_counterexample :
    attributesFor "wg0" epEmptyName (some lookupEmptyName) ≠
      base4 "wg0" epEmptyName ∧
    lookupEmptyName epEmptyName.public_key = some ⟨"pk", "", some ""⟩ ∧
    attributesFor "wg0" epEmptyName (some lookupEmptyName) =
      base4 "wg0" epEmptyName ++ [("friendly_name", "")] := by decide

/-- Claim C3 as amended: for every rendered remote endpoint the label
list starts with the fixed-order labels `inteface`, `public_key`,
`local_ip`, `local_subnet`, and a `friendly_name` label is appended
if and only if the name-lookup collaborator is supplied and returns
an entry with a present name for that public key (whether or not the
name is empty). -/
theorem c3_friendly_name_iff_present (iface : String) (ep : RemoteEndpoint)
    (pehm : Option PeerEntryHashMap) :
    (∃ f pe n, pehm = some f ∧ f ep.public_key = some pe ∧ pe.name = some n ∧
       attributesFor iface ep pehm = base4 iface ep ++ [("friendly_name", n)]) ∨
    (attributesFor iface ep pehm = base4 iface ep ∧
       ∀ f, pehm = some f → ∀ pe, f ep.public_key = some pe → pe.name = none) := by
  cases pehm with
  | none =>
    right
    constructor
    · simp [attributesFor, base4]
    · intro f hf
      cases hf
  | some f =>
    cases hpe : f ep.public_key with
    | none =>
      right
      constructor
      · simp [attributesFor, base4, hpe]
      · intro f' hf' pe hpe'
        cases hf'
        rw [hpe] at hpe'
        cases hpe'
    | some pe =>
      cases hn : pe.name with
      | none =>
        right
        constructor
        · simp [attributesFor, base4, hpe, hn]
        · intro f' hf' pe' hpe'
          cases hf'
          rw [hpe] at hpe'
          cases hpe'
          exact hn
      | some n =>
        left
        exact ⟨f, pe, n, rfl, hpe, hn, by simp [attributesFor, base4, hpe, hn]⟩

/-- The remote endpoints of one interface's endpoint list, paired
with the interface name, in list order. -/
def remotePairsOf (iface : String) : List Endpoint → List (String × RemoteEndpoint)
  | [] => []
  | Endpoint.Local _ :: rest => remotePairsOf iface rest
  | Endpoint.Remote re :: rest => (iface, re) :: remotePairsOf iface rest

/-- All remote endpoints of the table, in traversal order. -/
def remotePairs : List (String × List Endpoint) → List (String × RemoteEndpoint)
  | [] => []
  | (iface, eps) :: rest => remotePairsOf iface eps ++ remotePairs rest

/-- The sample line rendered for one remote endpoint in the family of
counter `pc`, whose value is selected by `f`. -/
def sampleLine (pehm : Option PeerEntryHashMap) (pc : PrometheusCounter)
    (f : RemoteEndpoint → Nat) (p : String × RemoteEndpoint) : String :=
  render_counter pc (attributesFor p.1 p.2 pehm) (f p.2)

/-- One whole metric-family block: the family's header followed by
the sample lines of every remote endpoint of the table. -/
def familyBlock (pc : PrometheusCounter) (f : RemoteEndpoint → Nat)
    (wg : WireGuard) (pehm : Option PeerEntryHashMap) : String :=
  render_header pc ++ concatAll ((remotePairs wg.interfaces).map (sampleLine pehm pc f))

/-- The inner render loop appends, to each of the three buffers, the
sample lines of the interface's remote endpoints in list order. -/
theorem renderInner_spec (pehm : Option PeerEntryHashMap) (iface : String)
    (eps : List Endpoint) (s1 s2 s3 : List String) :
    renderInner pehm iface eps (s1, s2, s3) =
      (s1 ++ (remotePairsOf iface eps).map
        (sampleLine pehm pc_sent_bytes_total (fun ep => ep.sent_bytes)),
       s2 ++ (remotePairsOf iface eps).map
        (sampleLine pehm pc_received_bytes_total (fun ep => ep.received_bytes)),
       s3 ++ (remotePairsOf iface eps).map
        (sampleLine pehm pc_latest_handshake (fun ep => ep.latest_handshake))) := by
  induction eps generalizing s1 s2 s3 with
  | nil => simp [renderInner, remotePairsOf]
  | cons e rest ih =>
    cases e with
    | Local le => simp [renderInner, remotePairsOf, ih]
    | Remote re =>
      simp [renderInner, remotePairsOf, ih, sampleLine]

/-- The outer render loop appends the sample lines of every remote
endpoint of the table to the three seeded buffers. -/
theorem renderOuter_spec (pehm : Option PeerEntryHashMap)
    (ifs : List (String × List Endpoint)) (s1 s2 s3 : List String) :
    renderOuter pehm ifs (s1, s2, s3) =
      (s1 ++ (remotePairs ifs).map
        (sampleLine pehm pc_sent_bytes_total (fun ep => ep.sent_bytes)),
       s2 ++ (remotePairs ifs).map
        (sampleLine pehm pc_received_bytes_total (fun ep => ep.received_bytes)),
       s3 ++ (remotePairs ifs).map
        (sampleLine pehm pc_latest_handshake (fun ep => ep.latest_handshake))) := by
  induction ifs generalizing s1 s2 s3 with
  | nil => simp [renderOuter, remotePairs]
  | cons p rest ih =>
    cases p with
    | mk iface eps =>
      simp [renderOuter, remotePairs, renderInner_spec, ih]

/-- Concatenating buffers distributes over list append. -/
theorem concatAll_append (l1 l2 : List String) :
    concatAll (l1 ++ l2) = concatAll l1 ++ concatAll l2 := by
  induction l1 with
  | nil => simp [concatAll, String.empty_append]
  | cons s t ih => simp [concatAll, ih, String.append_assoc]

/-- Claim C2: for every table and lookup the rendered text is the
complete `wireguard_sent_bytes_total` block (header, then all sample
lines over every interface and endpoint), then the complete
`wireguard_received_bytes_total` block, then the complete
`wireguard_latest_handshake_seconds` block: families are grouped
across the whole table, never interleaved per endpoint, and within
one interface's endpoint sequence the samples keep the parse-stage
insertion order (the order of `remotePairs`, which traverses each
interface's endpoint list in list order). -/
theorem c2_family_grouped_output (wg : WireGuard) (pehm : Option PeerEntryHashMap) :
    render_with_names wg pehm =
      familyBlock pc_sent_bytes_total (fun ep => ep.sent_bytes) wg pehm ++
      familyBlock pc_received_bytes_total (fun ep => ep.received_bytes) wg pehm ++
      familyBlock pc_latest_handshake (fun ep => ep.latest_handshake) wg pehm := by
  unfold render_with_names familyBlock
  rw [renderOuter_spec]
  simp [concatAll]

/-- Test for the `if let Endpoint::Remote(ep)` dispatch of line 156. -/
def isRemoteEndpoint : Endpoint → Bool
  | Endpoint.Local _ => false
  | Endpoint.Remote _ => true

/-- Keep only the remote endpoints of every interface. -/
def filterRemotes (m : List (String × List Endpoint)) : List (String × List Endpoint) :=
  m.map (fun p => (p.1, p.2.filter isRemoteEndpoint))

/-- Dropping local endpoints from a list does not change its remote
pairs. -/
theorem remotePairsOf_filter (iface : String) (eps : List Endpoint) :
    remotePairsOf iface (eps.filter isRemoteEndpoint) = remotePairsOf iface eps := by
  induction eps with
  | nil => rfl
  | cons e rest ih =>
    cases e with
    | Local le => simpa [List.filter, isRemoteEndpoint, remotePairsOf] using ih
    | Remote re => simpa [List.filter, isRemoteEndpoint, remotePairsOf] using ih

/-- Dropping local endpoints from a table does not change its remote
pairs. -/
theorem remotePairs_filterRemotes (m : List (String × List Endpoint)) :
    remotePairs (filterRemotes m) = remotePairs m := by
  induction m with
  | nil => rfl
  | cons p rest ih =>
    cases p with
    | mk iface eps =>
      simp [filterRemotes, remotePairs, remotePairsOf_filter, ih]
      simpa [filterRemotes] using ih

/-- A list of endpoints with no remote endpoint yields no remote
pairs. -/
theorem remotePairsOf_all_local (iface : String) (eps : List Endpoint)
    (h : (eps.all fun e => !(isRemoteEndpoint e)) = true) :
    remotePairsOf iface eps = [] := by
  induction eps with
  | nil => rfl
  | cons e es ih =>
    cases e with
    | Local le =>
      simp only [List.all_cons, Bool.and_eq_true] at h
      simpa [remotePairsOf] using ih h.2
    | Remote re =>
      simp [List.all_cons, isRemoteEndpoint] at h

/-- A table with no remote endpoint yields no remote pairs. -/
theorem remotePairs_all_local (m : List (String × List Endpoint))
    (h : (m.all fun p => p.2.all fun e => !(isRemoteEndpoint e)) = true) :
    remotePairs m = [] := by
  induction m with
  | nil => rfl
  | cons p rest ih =>
    simp only [List.all_cons, Bool.and_eq_true] at h
    cases p with
    | mk iface eps =>
      simp only [remotePairs, remotePairsOf_all_local iface eps h.1, List.nil_append]
      exact ih h.2

/-- Claim C8: for every table and every lookup, only remote endpoints
produce sample lines — deleting every local endpoint leaves the
rendered text unchanged — and a table containing only local endpoints
renders to exactly the three header blocks with no sample lines. -/
theorem c8_only_remote_rendered (wg : WireGuard) (pehm : Option PeerEntryHashMap) :
    render_with_names wg pehm = render_with_names ⟨filterRemotes wg.interfaces⟩ pehm ∧
    ((wg.interfaces.all fun p => p.2.all fun e => !(isRemoteEndpoint e)) = true →
      render_with_names wg pehm =
        render_header pc_sent_bytes_total ++ render_header pc_received_bytes_total ++
          render_header pc_latest_handshake) := by
  constructor
  · unfold render_with_names
    rw [renderOuter_spec, renderOuter_spec]
    simp [remotePairs_filterRemotes]
  · intro hall
    have hrp : remotePairs wg.interfaces = [] := remotePairs_all_local _ hall
    unfold render_with_names
    rw [renderOuter_spec]
    simp [hrp, concatAll, String.append_empty, String.append_assoc]

/-- Local-only table used by the C8 witness. -/
def wgLocalOnly : WireGuard :=
  ⟨[("wg0", [Endpoint.Local ⟨"pk", "sk", 51820, false⟩])]⟩

/-- Witness for C8: a concrete local-only table renders to exactly
the three headers. -/
theorem c8_witness :
    render_with_names wgLocalOnly none =
      render_header pc_sent_bytes_total ++ render_header pc_received_bytes_total ++
        render_header pc_latest_handshake :=
  (c8_only_remote_rendered wgLocalOnly none).2 (by decide)

/-- Observational equality of endpoints: equality on exactly the
fields that can influence rendered text.  For local endpoints no
field is rendered (the public key is kept equal only to fix the
shape of the comparison); for remote endpoints the fields
`remote_ip`, `remote_port` and `persistent_keepalive` are left
unconstrained because no label or value is built from them. -/
def endpointObsEq : Endpoint → Endpoint → Bool
  | Endpoint.Local a, Endpoint.Local b => a.public_key == b.public_key
  | Endpoint.Remote a, Endpoint.Remote b =>
    a.public_key == b.public_key && a.local_ip == b.local_ip &&
    a.local_subnet == b.local_subnet && a.latest_handshake == b.latest_handshake &&
    a.sent_bytes == b.sent_bytes && a.received_bytes == b.received_bytes
  | _, _ => false

/-- Pointwise observational equality of endpoint lists. -/
def endpointsObsEq : List Endpoint → List Endpoint → Bool
  | [], [] => true
  | e1 :: r1, e2 :: r2 => endpointObsEq e1 e2 && endpointsObsEq r1 r2
  | _, _ => false

/-- Pointwise observational equality of tables: same interface names
in the same order, observationally equal endpoint lists. -/
def tableObsEq : List (String × List Endpoint) → List (String × List Endpoint) → Bool
  | [], [] => true
  | (k1, es1) :: r1, (k2, es2) :: r2 =>
    k1 == k2 && endpointsObsEq es1 es2 && tableObsEq r1 r2
  | _, _ => false

/-- Observationally equal remote endpoints get the same label list. -/
theorem attributesFor_obsEq (iface : String) (pehm : Option PeerEntryHashMap)
    (a b : RemoteEndpoint)
    (h : endpointObsEq (Endpoint.Remote a) (Endpoint.Remote b) = true) :
    attributesFor iface a pehm = attributesFor iface b pehm := by
  simp only [endpointObsEq, Bool.and_eq_true, beq_iff_eq] at h
  obtain ⟨⟨⟨⟨⟨h1, h2⟩, h3⟩, h4⟩, h5⟩, h6⟩ := h
  unfold attributesFor
  rw [h1, h2, h3]

/-- The inner render loop sends observationally equal endpoint lists
to the same buffers. -/
theorem renderInner_obsEq (pehm : Option PeerEntryHashMap) (iface : String)
    (eps1 eps2 : List Endpoint) (acc : List String × List String × List String)
    (h : endpointsObsEq eps1 eps2 = true) :
    renderInner pehm iface eps1 acc = renderInner pehm iface eps2 acc := by
  induction eps1 generalizing eps2 acc with
  | nil =>
    cases eps2 with
    | nil => rfl
    | cons e2 r2 => simp [endpointsObsEq] at h
  | cons e1 r1 ih =>
    cases eps2 with
    | nil => simp [endpointsObsEq] at h
    | cons e2 r2 =>
      simp only [endpointsObsEq, Bool.and_eq_true] at h
      obtain ⟨he, hr⟩ := h
      cases e1 with
      | Local a =>
        cases e2 with
        | Local b => exact ih r2 acc hr
        | Remote b => simp [endpointObsEq] at he
      | Remote a =>
        cases e2 with
        | Local b => simp [endpointObsEq] at he
        | Remote b =>
          obtain ⟨acc1, acc2, acc3⟩ := acc
          have hfields := he
          simp only [endpointObsEq, Bool.and_eq_true, beq_iff_eq] at hfields
          obtain ⟨⟨⟨⟨⟨-, -⟩, -⟩, h4⟩, h5⟩, h6⟩ := hfields
          simp only [renderInner, attributesFor_obsEq iface pehm a b he, h4, h5, h6]
          exact ih r2 _ hr

/-- The outer render loop sends observationally equal tables to the
same buffers. -/
theorem renderOuter_obsEq (pehm : Option PeerEntryHashMap)
    (m1 m2 : List (String × List Endpoint)) (acc : List String × List String × List String)
    (h : tableObsEq m1 m2 = true) :
    renderOuter pehm m1 acc = renderOuter pehm m2 acc := by
  induction m1 generalizing m2 acc with
  | nil =>
    cases m2 with
    | nil => rfl
    | cons p2 r2 =>
      obtain ⟨k2, es2⟩ := p2
      simp [tableObsEq] at h
  | cons p1 r1 ih =>
    obtain ⟨k1, es1⟩ := p1
    cases m2 with
    | nil => simp [tableObsEq] at h
    | cons p2 r2 =>
      obtain ⟨k2, es2⟩ := p2
      simp only [tableObsEq, Bool.and_eq_true, beq_iff_eq] at h
      obtain ⟨⟨hk, hes⟩, hr⟩ := h
      subst hk
      simp only [renderOuter]
      rw [renderInner_obsEq pehm k1 es1 es2 acc hes]
      exact ih r2 _ hr

/-- Claim C10: the rendered text does not depend on the fields that
carry no metric or label — two tables that agree on everything except
`private_key`, `local_port` or `persistent_keepalive` of local
endpoints and `remote_ip`, `remote_port` or `persistent_keepalive` of
remote endpoints render to identical text under every lookup; in
particular (taking the two tables identical) rendering the same table
twice with the same lookup is byte-identical. -/
theorem c10_unused_fields_no_influence (wg1 wg2 : WireGuard)
    (pehm : Option PeerEntryHashMap)
    (h : tableObsEq wg1.interfaces wg2.interfaces = true) :
    render_with_names wg1 pehm = render_with_names wg2 pehm := by
  unfold render_with_names
  rw [renderOuter_obsEq pehm wg1.interfaces wg2.interfaces _ h]

/-- First table of the C10 witness. -/
def wgObsA : WireGuard :=
  ⟨[("wg0", [Endpoint.Local ⟨"lpk", "private-one", 100, false⟩,
             Endpoint.Remote ⟨"rpk", some "1.2.3.4", some 80, "10.0.0.2", "32", 7, 8, 9, false⟩])]⟩

/-- Second table of the C10 witness: same observable fields, but
different local private key and port, different remote socket data
and keepalive flags. -/
def wgObsB : WireGuard :=
  ⟨[("wg0", [Endpoint.Local ⟨"lpk", "private-two", 200, true⟩,
             Endpoint.Remote ⟨"rpk", none, none, "10.0.0.2", "32", 7, 8, 9, true⟩])]⟩

/-- Witness for C10 at two concrete tables that differ only in the
non-rendered fields. -/
theorem c10_witness : render_with_names wgObsA none = render_with_names wgObsB none :=
  c10_unused_fields_no_influence wgObsA wgObsB none (by decide)

/-- Inversion of a successful `parseRemoteIpPort`: either the socket
token is the `"(none)"` placeholder and both parts are absent, or it
is a socket address and both parts are present. -/
theorem parseRemoteIpPort_ok_inv (sock : String) (rip : Option String) (rport : Option Nat)
    (h : parseRemoteIpPort sock = Except.ok (rip, rport)) :
    (sock = "(none)" ∧ rip = none ∧ rport = none) ∨
    (sock ≠ "(none)" ∧ ∃ ip port, parseSocketAddr sock = some (ip, port) ∧
      rip = some ip ∧ rport = some port) := by
  unfold parseRemoteIpPort at h
  split at h
  · next heq =>
    injection h with h
    unfold to_option_string EMPTY at heq
    split at heq
    · next hsock =>
      exact Or.inl ⟨hsock, (congrArg Prod.fst h).symm, (congrArg Prod.snd h).symm⟩
    · cases heq
  · next ipp heq =>
    unfold to_option_string EMPTY at heq
    split at heq
    · cases heq
    · next hsock =>
      injection heq with heq
      subst heq
      split at h
      · next ip p hps =>
        injection h with h
        exact Or.inr ⟨hsock, ip, p, hps,
          (congrArg Prod.fst h).symm, (congrArg Prod.snd h).symm⟩
      · cases h

/-- Claim C5: for every line parsed to a remote endpoint, the socket
token `"(none)"` yields both `remote_ip` and `remote_port` absent,
and any other socket token yields both present, carrying exactly the
IP and port split out of the address form by the socket-address
parser. -/
theorem c5_socket_field (line : String) (k : String) (ep : RemoteEndpoint)
    (h : parseLine line = Except.ok (k, Endpoint.Remote ep))
    (s : String) (hs : (tokensOf line).get? 3 = some s) :
    (s = "(none)" → ep.remote_ip = none ∧ ep.remote_port = none) ∧
    (s ≠ "(none)" → ∃ ip port, parseSocketAddr s = some (ip, port) ∧
      ep.remote_ip = some ip ∧ ep.remote_port = some port) := by
  unfold parseLine at h
  by_cases hl : (tokensOf line).length = 5
  · simp only [hl, if_true] at h
    obtain ⟨le, he, -⟩ := parseLocal_ok_inv _ _ _ h
    cases he
  · simp only [hl, if_false] at h
    obtain ⟨ep', he, -, -, ⟨sock, hsock, hip⟩, -⟩ := parseRemote_ok_inv _ _ _ h
    cases he
    rw [hs] at hsock
    injection hsock with hsock
    subst hsock
    rcases parseRemoteIpPort_ok_inv _ _ _ hip with ⟨hq, h1, h2⟩ | ⟨hq, ip, port, hps, h1, h2⟩
    · exact ⟨fun _ => ⟨h1, h2⟩, fun hne => absurd hq hne⟩
    · exact ⟨fun hnone => absurd hnone hq, fun _ => ⟨ip, port, hps, h1, h2⟩⟩

/-- Concrete remote line with a present socket address, for the C5
witness. -/
def remoteLineEx : String :=
  "wg0\tk1\t(none)\t37.159.76.245:29159\t10.70.0.2/32\t1555771458\t10288508\t139524160\toff"

/-- The endpoint that `parseLine` produces for `remoteLineEx`. -/
def remoteEpEx : RemoteEndpoint :=
  ⟨"k1", some "37.159.76.245", some 29159, "10.70.0.2", "32", 1555771458, 10288508, 139524160, false⟩

/-- Witness for C5 at a concrete remote line whose socket token is an
address (the not-"(none)" side of the theorem applies). -/
theorem c5_witness :
    ∃ ip port, parseSocketAddr "37.159.76.245:29159" = some (ip, port) ∧
      remoteEpEx.remote_ip = some ip ∧ remoteEpEx.remote_port = some port :=
  (c5_socket_field remoteLineEx "wg0" remoteEpEx (by decide)
    "37.159.76.245:29159" (by decide)).2 (by decide)

/-- The first piece of a character split: every split starts with the
text before the first separator, which itself contains no separator;
either there is no separator at all and the piece is the whole list,
or the list continues with the separator and the split of the rest. -/
theorem splitCharList_head (c : Char) (l : List Char) :
    ∃ h t, splitCharList c l = h :: t ∧ c ∉ h ∧
      ((t = [] ∧ l = h) ∨ ∃ rest, l = h ++ c :: rest ∧ splitCharList c rest = t) := by
  induction l with
  | nil => exact ⟨[], [], rfl, by simp, Or.inl ⟨rfl, rfl⟩⟩
  | cons x xs ih =>
    obtain ⟨h, t, hsp, hc, hrest⟩ := ih
    by_cases hx : x = c
    · subst hx
      refine ⟨[], h :: t, ?_, by simp, Or.inr ⟨xs, by simp, hsp⟩⟩
      simp [splitCharList, hsp]
    · refine ⟨x :: h, t, ?_, ?_, ?_⟩
      · simp [splitCharList, hsp, hx]
      · intro hmem
        rcases List.mem_cons.mp hmem with hcx | hch
        · exact hx hcx.symm
        · exact hc hch
      · rcases hrest with ⟨ht, hl⟩ | ⟨rest, hl, hsp2⟩
        · exact Or.inl ⟨ht, by rw [hl]⟩
        · exact Or.inr ⟨rest, by rw [hl]; rfl, hsp2⟩

/-- Claim C7: for every line parsed to a remote endpoint, the
combined local-ip/subnet token is split at its FIRST `/`: `local_ip`
is exactly the text before the first `/` (and contains none), and
`local_subnet` is the component that follows it (the whole remainder
when the token holds a single `/`). -/
theorem c7_local_ip_subnet_split (line : String) (k : String) (ep : RemoteEndpoint)
    (h : parseLine line = Except.ok (k, Endpoint.Remote ep))
    (v4 : String) (hv4 : (tokensOf line).get? 4 = some v4) :
    ('/' : Char) ∉ ep.local_ip.data ∧ ('/' : Char) ∉ ep.local_subnet.data ∧
    ∃ rest, v4.data = ep.local_ip.data ++ '/' :: rest ∧
      (rest = ep.local_subnet.data ∨
       ∃ rest2, rest = ep.local_subnet.data ++ '/' :: rest2) := by
  unfold parseLine at h
  by_cases hl : (tokensOf line).length = 5
  · simp only [hl, if_true] at h
    obtain ⟨le, he, -⟩ := parseLocal_ok_inv _ _ _ h
    cases he
  · simp only [hl, if_false] at h
    obtain ⟨ep', he, -, -, -, ⟨v4', hv4', hsp0, hsp1⟩, -⟩ := parseRemote_ok_inv _ _ _ h
    cases he
    rw [hv4] at hv4'
    injection hv4' with hv4'
    subst hv4'
    obtain ⟨h0, t, hsp, hc0, hrest⟩ := splitCharList_head '/' v4.data
    unfold splitChar at hsp0 hsp1
    rw [List.get?_map, hsp] at hsp0
    rw [List.get?_map, hsp] at hsp1
    simp only [List.get?] at hsp0 hsp1
    injection hsp0 with hip0
    have hipd : ep.local_ip.data = h0 := by rw [← hip0]
    rcases hrest with ⟨ht, -⟩ | ⟨rest, hl4, hsp2⟩
    · rw [ht] at hsp1
      simp [List.get?] at hsp1
    · obtain ⟨h1, t2, hspr, hc1, hrest2⟩ := splitCharList_head '/' rest
      rw [hsp2] at hspr
      subst hspr
      simp only [List.get?, Option.map_some'] at hsp1
      injection hsp1 with hsub0
      have hsubd : ep.local_subnet.data = h1 := by rw [← hsub0]
      refine ⟨by rw [hipd]; exact hc0, by rw [hsubd]; exact hc1, rest, ?_, ?_⟩
      · rw [hipd]
        exact hl4
      · rcases hrest2 with ⟨-, hr⟩ | ⟨rest2, hr, -⟩
        · exact Or.inl (by rw [hsubd]; exact hr)
        · exact Or.inr ⟨rest2, by rw [hsubd]; exact hr⟩

/-- Witness for C7 at a concrete remote line whose local-ip/subnet
token is `10.70.0.2/32`. -/
theorem c7_witness :
    ('/' : Char) ∉ remoteEpEx.local_ip.data ∧
    ('/' : Char) ∉ remoteEpEx.local_subnet.data ∧
    ∃ rest, ("10.70.0.2/32" : String).data = remoteEpEx.local_ip.data ++ '/' :: rest ∧
      (rest = remoteEpEx.local_subnet.data ∨
       ∃ rest2, rest = remoteEpEx.local_subnet.data ++ '/' :: rest2) :=
  c7_local_ip_subnet_split remoteLineEx "wg0" remoteEpEx (by decide)
    "10.70.0.2/32" (by decide)

/-- If every earlier line parses and some line fails, the whole parse
loop fails with that line's error, whatever comes after it: no
partial table survives. -/
theorem tryFromLines_error_propagates (pre : List String) (line : String)
    (post : List String) (acc : List (String × List Endpoint)) (err : RunError)
    (hpre : ∀ l ∈ pre, ∃ p, parseLine l = Except.ok p)
    (herr : parseLine line = Except.error err) :
    tryFromLines (pre ++ line :: post) acc = Except.error err := by
  induction pre generalizing acc with
  | nil => simp [tryFromLines, herr]
  | cons l rest ih =>
    obtain ⟨p, hp⟩ := hpre l (List.mem_cons_self l rest)
    obtain ⟨k, e⟩ := p
    simp only [List.cons_append, tryFromLines, hp]
    exact ih _ (fun l' hl' => hpre l' (List.mem_cons_of_mem l hl'))

/-- A remote row whose earlier fields decode but whose handshake
token is not an unsigned 64-bit numeral fails with the format
error. -/
theorem parseRemote_handshake_formatError (v : List String)
    (h1 : ∃ pk, v.get? 1 = some pk)
    (h3 : ∃ sock rp, v.get? 3 = some sock ∧ parseRemoteIpPort sock = Except.ok rp)
    (h4 : ∃ v4 lip lsub, v.get? 4 = some v4 ∧
      (splitChar '/' v4).get? 0 = some lip ∧ (splitChar '/' v4).get? 1 = some lsub)
    (h5 : ∃ t5, v.get? 5 = some t5 ∧ parseU64 t5 = none) :
    parseRemote v = Except.error RunError.formatError := by
  obtain ⟨pk, h1⟩ := h1
  obtain ⟨sock, ⟨rip, rport⟩, h3, hp3⟩ := h3
  obtain ⟨v4, lip, lsub, h4, h40, h41⟩ := h4
  obtain ⟨t5, h5, hp5⟩ := h5
  unfold parseRemote
  simp only [h1, h3, hp3, h4, h40, h41, h5, hp5]

/-- Claim C4: when the input decomposes into lines of which every one
before some remote line parses, and that remote line has a token
count other than 5, decodable socket and local-ip/subnet fields, and
a handshake token that is not an unsigned integer, the entire parse
fails synchronously with the format error — no partial table is
produced (the whole `try_from` returns the error). -/
theorem c4_handshake_format_error (input : String) (pre post : List String) (line : String)
    (hsplit : rustLines input = pre ++ line :: post)
    (hpre : ∀ l ∈ pre, ∃ p, parseLine l = Except.ok p)
    (hlen : (tokensOf line).length ≠ 5)
    (h1 : ∃ pk, (tokensOf line).get? 1 = some pk)
    (h3 : ∃ sock rp, (tokensOf line).get? 3 = some sock ∧
      parseRemoteIpPort sock = Except.ok rp)
    (h4 : ∃ v4 lip lsub, (tokensOf line).get? 4 = some v4 ∧
      (splitChar '/' v4).get? 0 = some lip ∧ (splitChar '/' v4).get? 1 = some lsub)
    (h5 : ∃ t5, (tokensOf line).get? 5 = some t5 ∧ parseU64 t5 = none) :
    wireGuardTryFrom input = Except.error RunError.formatError := by
  have hline : parseLine line = Except.error RunError.formatError := by
    unfold parseLine
    rw [if_neg hlen]
    exact parseRemote_handshake_formatError _ h1 h3 h4 h5
  have htl : tryFromLines (rustLines input) [] = Except.error RunError.formatError := by
    rw [hsplit]
    exact tryFromLines_error_propagates pre line post [] RunError.formatError hpre hline
  unfold wireGuardTryFrom
  rw [htl]

/-- Concrete dump whose only line has a non-numeric handshake token,
for the C4 witness. -/
def badHandshakeInput : String :=
  "wg0\tpk\tx\t(none)\t10.0.0.1/32\tnotanumber\t1\t2\toff"

/-- Witness for C4: the concrete malformed dump makes the whole parse
return the format error. -/
theorem c4_witness : wireGuardTryFrom badHandshakeInput = Except.error RunError.formatError :=
  c4_handshake_format_error badHandshakeInput [] [] badHandshakeInput
    (by decide) (by simp) (by decide)
    ⟨"pk", by decide⟩
    ⟨"(none)", (none, none), by decide, by decide⟩
    ⟨"10.0.0.1/32", "10.0.0.1", "32", by decide, by decide, by decide⟩
    ⟨"notanumber", by decide, by decide⟩

/-- Parse every line of the dump, stopping at the first failure
(the pure "parse phase" of the `try_from` loop). -/
def parseAllLines : List String → Except RunError (List (String × Endpoint))
  | [] => Except.ok []
  | l :: rest =>
    match parseLine l with
    | Except.error e => Except.error e
    | Except.ok p =>
      match parseAllLines rest with
      | Except.error e => Except.error e
      | Except.ok ps => Except.ok (p :: ps)

/-- Insert a list of keyed endpoints one by one (the "grouping phase"
of the `try_from` loop). -/
def foldInsert (acc : List (String × List Endpoint)) :
    List (String × Endpoint) → List (String × List Endpoint)
  | [] => acc
  | (k, e) :: ps => foldInsert (insertEndpoint acc k e) ps

/-- The interleaved parse-and-insert loop equals parsing all lines
first and then grouping. -/
theorem tryFromLines_eq_parseAll (ls : List String) (acc : List (String × List Endpoint)) :
    tryFromLines ls acc =
      match parseAllLines ls with
      | Except.ok ps => Except.ok (foldInsert acc ps)
      | Except.error e => Except.error e := by
  induction ls generalizing acc with
  | nil => rfl
  | cons l rest ih =>
    cases hp : parseLine l with
    | error e => simp [tryFromLines, parseAllLines, hp]
    | ok p =>
      obtain ⟨k, e⟩ := p
      simp only [tryFromLines, parseAllLines, hp, ih]
      cases parseAllLines rest with
      | error e2 => rfl
      | ok ps => rfl

/-- Lookup by interface key in the association-list model of the
`HashMap` (`get`/`get_mut` of lines 106–111). -/
def lookupIface : List (String × List Endpoint) → String → Option (List Endpoint)
  | [], _ => none
  | (k0, es) :: rest, k => if k0 = k then some es else lookupIface rest k

/-- The endpoints keyed `k` among a list of keyed endpoints, in list
order. -/
def pairsFor : List (String × Endpoint) → String → List Endpoint
  | [], _ => []
  | (k0, e) :: ps, k => if k0 = k then e :: pairsFor ps k else pairsFor ps k

/-- Effect of one insertion on lookups: the inserted key gains `e` at
the end of its (possibly fresh) vector, every other key is
untouched. -/
theorem lookupIface_insert (m : List (String × List Endpoint)) (k : String)
    (e : Endpoint) (j : String) :
    lookupIface (insertEndpoint m k e) j =
      if j = k then some ((lookupIface m k).getD [] ++ [e]) else lookupIface m j := by
  induction m with
  | nil =>
    by_cases hj : j = k
    · subst hj
      simp [insertEndpoint, lookupIface]
    · have hkj : ¬(k = j) := fun h => hj h.symm
      simp [insertEndpoint, lookupIface, hj, hkj]
  | cons p rest ih =>
    obtain ⟨k0, es⟩ := p
    by_cases hk0 : k0 = k
    · subst hk0
      by_cases hj : j = k0
      · subst hj
        simp [insertEndpoint, lookupIface]
      · have hkj : ¬(k0 = j) := fun h => hj h.symm
        simp [insertEndpoint, lookupIface, hj, hkj]
    · by_cases hj : k0 = j
      · subst hj
        have hjk : ¬(k0 = k) := hk0
        simp [insertEndpoint, lookupIface, hk0, hjk]
      · simp [insertEndpoint, lookupIface, hk0, hj, ih]

/-- Lookup after grouping: a key's vector consists of whatever the
accumulator already held, followed by the endpoints keyed to it, in
their list order. -/
theorem lookupIface_foldInsert (ps : List (String × Endpoint))
    (m : List (String × List Endpoint)) (k : String) :
    lookupIface (foldInsert m ps) k =
      match lookupIface m k with
      | some es => some (es ++ pairsFor ps k)
      | none => if pairsFor ps k = [] then none else some (pairsFor ps k) := by
  induction ps generalizing m with
  | nil =>
    cases hm : lookupIface m k with
    | none => simp [foldInsert, pairsFor, hm]
    | some es => simp [foldInsert, pairsFor, hm]
  | cons p ps ih =>
    obtain ⟨k0, e⟩ := p
    simp only [foldInsert]
    rw [ih]
    rw [lookupIface_insert]
    by_cases hk : k = k0
    · subst hk
      cases hm : lookupIface m k with
      | none => simp [pairsFor, hm]
      | some es => simp [pairsFor, hm]
    · have hk0 : ¬(k0 = k) := fun h => hk h.symm
      simp only [if_neg hk, pairsFor, if_neg hk0]

/-- Keys after one insertion: unchanged when the key is already
present, appended otherwise. -/
theorem insertEndpoint_keys (m : List (String × List Endpoint)) (k : String) (e : Endpoint) :
    (insertEndpoint m k e).map Prod.fst =
      if k ∈ m.map Prod.fst then m.map Prod.fst else m.map Prod.fst ++ [k] := by
  induction m with
  | nil => simp [insertEndpoint]
  | cons p rest ih =>
    obtain ⟨k0, es⟩ := p
    by_cases hk0 : k0 = k
    · subst hk0
      simp [insertEndpoint]
    · have hne : ¬(k = k0) := fun h => hk0 h.symm
      by_cases hmem : k ∈ rest.map Prod.fst
      · simp [insertEndpoint, hk0, ih, hmem, List.mem_cons, hne]
      · simp [insertEndpoint, hk0, ih, hmem, List.mem_cons, hne]

/-- One insertion preserves distinctness of the interface keys. -/
theorem insertEndpoint_keys_nodup (m : List (String × List Endpoint)) (k : String)
    (e : Endpoint) (h : (m.map Prod.fst).Nodup) :
    ((insertEndpoint m k e).map Prod.fst).Nodup := by
  rw [insertEndpoint_keys]
  by_cases hk : k ∈ m.map Prod.fst
  · simpa [hk] using h
  · simp only [hk, if_false]
    simp [List.nodup_append, h, hk]

/-- Grouping preserves distinctness of the interface keys. -/
theorem foldInsert_keys_nodup (ps : List (String × Endpoint))
    (m : List (String × List Endpoint)) (h : (m.map Prod.fst).Nodup) :
    ((foldInsert m ps).map Prod.fst).Nodup := by
  induction ps generalizing m with
  | nil => exact h
  | cons p ps ih =>
    obtain ⟨k, e⟩ := p
    exact ih _ (insertEndpoint_keys_nodup m k e h)

/-- A member pair has a successful lookup (possibly of another pair
with the same key). -/
theorem lookupIface_isSome_of_mem (m : List (String × List Endpoint)) (k : String)
    (es : List Endpoint) (hmem : (k, es) ∈ m) : ∃ es2, lookupIface m k = some es2 := by
  induction m with
  | nil => cases hmem
  | cons p rest ih =>
    obtain ⟨k0, es0⟩ := p
    rcases List.mem_cons.mp hmem with heq | hmem2
    · injection heq with h1 h2
      subst h1
      exact ⟨es0, by simp [lookupIface]⟩
    · by_cases hk : k0 = k
      · exact ⟨es0, by simp [lookupIface, hk]⟩
      · simpa [lookupIface, hk] using ih hmem2

/-- A successful lookup comes from a member pair. -/
theorem mem_of_lookupIface (m : List (String × List Endpoint)) (k : String)
    (es : List Endpoint) (h : lookupIface m k = some es) : (k, es) ∈ m := by
  induction m with
  | nil => cases h
  | cons p rest ih =>
    obtain ⟨k0, es0⟩ := p
    by_cases hk : k0 = k
    · subst hk
      simp only [lookupIface, if_pos rfl] at h
      injection h with h
      subst h
      exact List.mem_cons_self _ _
    · simp only [lookupIface, if_neg hk] at h
      exact List.mem_cons_of_mem _ (ih h)

/-- Under distinct keys, membership determines the lookup. -/
theorem lookupIface_eq_of_mem_nodup (m : List (String × List Endpoint)) (k : String)
    (es : List Endpoint) (hnd : (m.map Prod.fst).Nodup) (hmem : (k, es) ∈ m) :
    lookupIface m k = some es := by
  induction m with
  | nil => cases hmem
  | cons p rest ih =>
    obtain ⟨k0, es0⟩ := p
    simp only [List.map_cons, List.nodup_cons] at hnd
    rcases List.mem_cons.mp hmem with heq | hmem2
    · injection heq with h1 h2
      subst h1
      subst h2
      simp [lookupIface]
    · by_cases hk : k0 = k
      · subst hk
        exact absurd (by simpa using List.mem_map_of_mem Prod.fst hmem2) hnd.1
      · simpa [lookupIface, hk] using ih hnd.2 hmem2

/-- The interface key returned by `parseLine` is always the line's
token 0. -/
theorem parseLine_iface_head (l : String) (k : String) (e : Endpoint)
    (h : parseLine l = Except.ok (k, e)) : (tokensOf l).get? 0 = some k := by
  unfold parseLine at h
  by_cases hl : (tokensOf l).length = 5
  · simp only [hl, if_true] at h
    obtain ⟨le, -, h0, -⟩ := parseLocal_ok_inv _ _ _ h
    exact h0
  · simp only [hl, if_false] at h
    obtain ⟨re, -, h0, -⟩ := parseRemote_ok_inv _ _ _ h
    exact h0

/-- The endpoint a line contributes to interface `k`, if any. -/
def lineEndpointFor (k : String) (l : String) : Option Endpoint :=
  match parseLine l with
  | Except.ok (k2, e) => if k2 = k then some e else none
  | Except.error _ => none

/-- The endpoints contributed to interface `k` by a line list, in
source line order. -/
def endpointsOfLines (ls : List String) (k : String) : List Endpoint :=
  ls.filterMap (lineEndpointFor k)

/-- How many lines carry interface token `k` as their token 0. -/
def countLinesFor : List String → String → Nat
  | [], _ => 0
  | l :: rest, k =>
    (if (tokensOf l).get? 0 = some k then 1 else 0) + countLinesFor rest k

/-- When every line parses, the endpoints grouped under `k` are
exactly the endpoints of the lines keyed `k`, in line order. -/
theorem pairsFor_eq_endpointsOfLines (ls : List String)
    (ps : List (String × Endpoint)) (k : String)
    (h : parseAllLines ls = Except.ok ps) :
    pairsFor ps k = endpointsOfLines ls k := by
  induction ls generalizing ps with
  | nil =>
    cases h
    rfl
  | cons l rest ih =>
    unfold parseAllLines at h
    cases hp : parseLine l with
    | error e =>
      rw [hp] at h
      cases h
    | ok p =>
      obtain ⟨k2, e⟩ := p
      rw [hp] at h
      cases hr : parseAllLines rest with
      | error e2 =>
        rw [hr] at h
        cases h
      | ok ps2 =>
        rw [hr] at h
        injection h with h
        subst h
        by_cases hk : k2 = k
        · simp [pairsFor, hk, endpointsOfLines, List.filterMap, lineEndpointFor, hp,
            ih ps2 hr]
        · simp [pairsFor, hk, endpointsOfLines, List.filterMap, lineEndpointFor, hp,
            ih ps2 hr]

/-- When every line parses, the number of endpoints grouped under `k`
is the number of lines whose token 0 is `k`. -/
theorem pairsFor_length_eq_count (ls : List String)
    (ps : List (String × Endpoint)) (k : String)
    (h : parseAllLines ls = Except.ok ps) :
    (pairsFor ps k).length = countLinesFor ls k := by
  induction ls generalizing ps with
  | nil =>
    cases h
    rfl
  | cons l rest ih =>
    unfold parseAllLines at h
    cases hp : parseLine l with
    | error e =>
      rw [hp] at h
      cases h
    | ok p =>
      obtain ⟨k2, e⟩ := p
      rw [hp] at h
      cases hr : parseAllLines rest with
      | error e2 =>
        rw [hr] at h
        cases h
      | ok ps2 =>
        rw [hr] at h
        injection h with h
        subst h
        have hhead := parseLine_iface_head l k2 e hp
        have hhead2 : (tokensOf l)[0]? = some k2 := by simpa using hhead
        by_cases hk : k2 = k
        · subst hk
          simp [pairsFor, countLinesFor, hhead2, ih ps2 hr, Nat.add_comm]
        · have hne : ¬((tokensOf l)[0]? = some k) := by
            rw [hhead2]
            intro hc
            injection hc with hc
            exact hk hc
          simp [pairsFor, hk, countLinesFor, hne, ih ps2 hr]

/-- Claim C6: when the parse succeeds, the table has pairwise
distinct interface keys; an interface entry exists exactly for the
interface tokens seen in the input; and each interface's endpoint
vector lists, in source line order, the endpoints of the lines
bearing that token — in particular its length is the number of such
lines. -/
theorem c6_one_entry_per_interface (input : String) (wg : WireGuard)
    (h : wireGuardTryFrom input = Except.ok wg) :
    (wg.interfaces.map Prod.fst).Nodup ∧
    (∀ k : String, (∃ es, (k, es) ∈ wg.interfaces) ↔
      0 < countLinesFor (rustLines input) k) ∧
    (∀ k es, (k, es) ∈ wg.interfaces →
      es = endpointsOfLines (rustLines input) k ∧
      es.length = countLinesFor (rustLines input) k) := by
  unfold wireGuardTryFrom at h
  rw [tryFromLines_eq_parseAll] at h
  cases hps : parseAllLines (rustLines input) with
  | error e =>
    rw [hps] at h
    cases h
  | ok ps =>
    rw [hps] at h
    injection h with h
    have hm : wg.interfaces = foldInsert [] ps := by rw [← h]
    have hnd : (wg.interfaces.map Prod.fst).Nodup := by
      rw [hm]
      exact foldInsert_keys_nodup ps [] List.nodup_nil
    have hlook : ∀ k, lookupIface wg.interfaces k =
        if pairsFor ps k = [] then none else some (pairsFor ps k) := by
      intro k
      rw [hm]
      have := lookupIface_foldInsert ps [] k
      simpa [lookupIface] using this
    refine ⟨hnd, ?_, ?_⟩
    · intro k
      constructor
      · rintro ⟨es, hmem⟩
        obtain ⟨es2, hl⟩ := lookupIface_isSome_of_mem _ _ _ hmem
        rw [hlook k] at hl
        by_cases hz : pairsFor ps k = []
        · rw [if_pos hz] at hl
          cases hl
        · rw [← pairsFor_length_eq_count (rustLines input) ps k hps]
          exact List.length_pos.mpr hz
      · intro hpos
        rw [← pairsFor_length_eq_count (rustLines input) ps k hps] at hpos
        have hz : ¬(pairsFor ps k = []) := by
          intro hc
          rw [hc] at hpos
          cases hpos
        have hl : lookupIface wg.interfaces k = some (pairsFor ps k) := by
          rw [hlook k, if_neg hz]
        exact ⟨pairsFor ps k, mem_of_lookupIface _ _ _ hl⟩
    · intro k es hmem
      have hl := lookupIface_eq_of_mem_nodup _ _ _ hnd hmem
      rw [hlook k] at hl
      by_cases hz : pairsFor ps k = []
      · rw [if_pos hz] at hl
        cases hl
      · rw [if_neg hz] at hl
        injection hl with hl
        subst hl
        exact ⟨pairsFor_eq_endpointsOfLines (rustLines input) ps k hps,
          pairsFor_length_eq_count (rustLines input) ps k hps⟩

/-- Concrete three-line dump over two interfaces, for the C6
witness. -/
def c6Input : String :=
  "a\tp\t(none)\t(none)\t1.2.3.4/32\t0\t0\t0\toff\nb\tq\t(none)\t(none)\t1.2.3.5/32\t0\t0\t0\toff\na\tr\t(none)\t(none)\t1.2.3.6/32\t0\t0\t0\toff"

/-- The table that parsing `c6Input` produces. -/
def wgC6 : WireGuard :=
  ⟨[("a", [Endpoint.Remote ⟨"p", none, none, "1.2.3.4", "32", 0, 0, 0, false⟩,
           Endpoint.Remote ⟨"r", none, none, "1.2.3.6", "32", 0, 0, 0, false⟩]),
    ("b", [Endpoint.Remote ⟨"q", none, none, "1.2.3.5", "32", 0, 0, 0, false⟩])]⟩

/-- Witness for C6 at the concrete dump: its parse succeeds and the
theorem's key-distinctness and per-interface grouping facts hold for
the resulting table. -/
theorem c6_witness :
    (wgC6.interfaces.map Prod.fst).Nodup ∧
    (∀ k es, (k, es) ∈ wgC6.interfaces →
      es = endpointsOfLines (rustLines c6Input) k ∧
      es.length = countLinesFor (rustLines c6Input) k) := by
  have h := c6_one_entry_per_interface c6Input wgC6 (by decide)
  exact ⟨h.1, h.2.2⟩
